import Mathlib

/-!
# Verification of the polymer-cli core against its specification

Shallow embedding of the core of the `polymer-cli` repository:

* `pkg/rpc/client.go` — `HexToUint64`, `GetEventSignatureHash` (Keccak-256),
  the `Transaction` / `TransactionReceipt` / `Log` wire records;
* `pkg/api/client.go` — the job-identifier normalization of `RequestProof`,
  the job-identifier parse of `GetProofStatus`, and the `WaitForProof`
  polling loop;
* `cmd/polymer-cli/cmd/request.go` — the pure resolution logic of
  `processTransactionByHash` (turning a transaction plus receipt plus the
  `--log-index` and `--event-signature` flags of the user into proof coordinates).

Machine integers are modelled as `Nat`/`Int` with explicit bounds; fallible
Go functions return `Except`/`Option`; remote calls are modelled by explicit
observation sequences passed in as arguments.
-/

namespace Polymer

/-! ## Digit and numeral machinery

Shared helpers for the decimal and hexadecimal string conversions used by
`strconv.ParseUint`, `big.Int.SetString` and the `toHex` of the spec.
-/

/-- Is `c` an ASCII decimal digit? -/
def isDecDigit (c : Char) : Bool :=
  '0' ≤ c && c ≤ '9'

/-- Is `c` an ASCII hexadecimal digit (either case)? -/
def isHexDigit (c : Char) : Bool :=
  isDecDigit c || ('a' ≤ c && c ≤ 'f') || ('A' ≤ c && c ≤ 'F')

/-- Numeric value of a hexadecimal digit character (junk for non-digits). -/
def hexVal (c : Char) : Nat :=
  if isDecDigit c then c.toNat - 48
  else if 'a' ≤ c && c ≤ 'f' then c.toNat - 87
  else if 'A' ≤ c && c ≤ 'F' then c.toNat - 55
  else 0

/-- Numeric value of a decimal digit character (junk for non-digits). -/
def decVal (c : Char) : Nat := c.toNat - '0'.toNat

/-- The digit character for a value `d < 16`, lowercase, as produced both by
the Go `fmt` decimal formatting (`d < 10`) and by lowercase hex encoders. -/
def digitChar (d : Nat) : Char :=
  if d < 10 then Char.ofNat ('0'.toNat + d) else Char.ofNat ('a'.toNat + d - 10)

/-- Digits of `n` in base `base`, most significant first, prepended to `acc`.
Structural recursion on an explicit fuel so that the kernel can evaluate it;
`fuel ≥ n` suffices since `n / base` strictly decreases for `base ≥ 2`. -/
def toDigitsAux (base : Nat) : Nat → Nat → List Char → List Char
  | 0, _, acc => acc
  | _ + 1, 0, acc => acc
  | fuel + 1, n, acc =>
    toDigitsAux base fuel (n / base) (digitChar (n % base) :: acc)

/-- Number of digits `toDigitsAux` produces (same fuel discipline). -/
def numDigits (base : Nat) : Nat → Nat → Nat
  | 0, _ => 0
  | _ + 1, 0 => 0
  | fuel + 1, n => numDigits base fuel (n / base) + 1

/-- Minimal base-`base` rendering of `n` (lowercase digits), e.g. the `toHex` of
the spec at base 16 and the Go `%d` and integral `%.0f` digits at base 10. -/
def toDigitsBase (base n : Nat) : List Char :=
  if n = 0 then ['0'] else toDigitsAux base n n []

/-- The `toHex` notion of the spec: minimal lowercase hexadecimal rendering of `n`. -/
def toHex (n : Nat) : String := ⟨toDigitsBase 16 n⟩

/-- Minimal decimal rendering of `n`, as the Go `fmt` package produces for
non-negative integers. -/
def decRepr (n : Nat) : String := ⟨toDigitsBase 10 n⟩

/-- Left-to-right accumulation of digits in base `base` using validity test
`isDig` and value function `dv`: consumes the list, failing on the first
invalid character. -/
def parseCore (isDig : Char → Bool) (dv : Char → Nat) (base : Nat) :
    List Char → Nat → Option Nat
  | [], a => some a
  | c :: cs, a =>
    if isDig c then parseCore isDig dv base cs (base * a + dv c) else none

/-- Hexadecimal digit accumulation, as `big.Int.SetString` (base 16) does
after sign handling. -/
def parseHexCore : List Char → Nat → Option Nat :=
  parseCore isHexDigit hexVal 16

/-- Parse a non-empty all-hex-digit string to its value. -/
def parseHexDigits (s : List Char) : Option Nat :=
  match s with
  | [] => none
  | _ => parseHexCore s 0

/-- Decimal digit accumulation, as `strconv.ParseUint` (base 10) does. -/
def parseDecCore : List Char → Nat → Option Nat :=
  parseCore isDecDigit decVal 10

/-- Parse a non-empty all-decimal-digit string: no sign, no underscores,
exactly the base-10 syntax of `strconv.ParseUint`. -/
def parseDecDigits (s : List Char) : Option Nat :=
  match s with
  | [] => none
  | _ => parseDecCore s 0

/-- Model of `strconv.ParseUint(s, 10, bitSize)`: decimal digits only; values needing
more than `bitSize` bits are a range error. `none` stands for the Go `error`
(both syntax and range failures; the calling code does not distinguish
them). -/
def goParseUint (s : String) (bitSize : Nat) : Option Nat :=
  match parseDecDigits s.data with
  | none => none
  | some v => if v < 2 ^ bitSize then some v else none

/-! ### Round-trip lemmas for the digit machinery -/

theorem toDigitsAux_zero (base fuel : Nat) (acc : List Char) :
    toDigitsAux base fuel 0 acc = acc := by
  cases fuel <;> rfl

theorem toDigitsAux_cons_ne_nil (base : Nat) :
    ∀ fuel n c acc, toDigitsAux base fuel n (c :: acc) ≠ []
  | 0, _, _, _ => by simp [toDigitsAux]
  | fuel + 1, 0, c, acc => by simp [toDigitsAux]
  | fuel + 1, m + 1, c, acc => by
    show toDigitsAux base fuel ((m + 1) / base) (digitChar ((m + 1) % base) :: c :: acc) ≠ []
    exact toDigitsAux_cons_ne_nil base fuel _ _ _

theorem toDigitsAux_ne_nil (base : Nat) (fuel m : Nat) (acc : List Char) :
    toDigitsAux base (fuel + 1) (m + 1) acc ≠ [] := by
  show toDigitsAux base fuel ((m + 1) / base) (digitChar ((m + 1) % base) :: acc) ≠ []
  exact toDigitsAux_cons_ne_nil base fuel _ _ _

/-- Generic round-trip invariant: consuming the digits of `n` multiplies the
accumulator into the high positions and adds `n`. -/
theorem parseCore_toDigitsAux (isDig : Char → Bool) (dv : Char → Nat)
    (base : Nat) (hbase : 2 ≤ base)
    (hdig : ∀ d, d < base → isDig (digitChar d) = true)
    (hval : ∀ d, d < base → dv (digitChar d) = d) :
    ∀ fuel n acc a, n ≤ fuel →
      parseCore isDig dv base (toDigitsAux base fuel n acc) a =
        parseCore isDig dv base acc (a * base ^ numDigits base fuel n + n)
  | 0, n, acc, a, hn => by
    have : n = 0 := Nat.le_zero.mp hn
    subst this
    simp [toDigitsAux, numDigits]
  | fuel + 1, 0, acc, a, _ => by
    simp [toDigitsAux, numDigits]
  | fuel + 1, m + 1, acc, a, hn => by
    have hq : (m + 1) / base ≤ fuel := by
      have h2 : (m + 1) / base < m + 1 := Nat.div_lt_self (Nat.succ_pos m) hbase
      omega
    show parseCore isDig dv base
        (toDigitsAux base fuel ((m + 1) / base) (digitChar ((m + 1) % base) :: acc)) a
      = parseCore isDig dv base acc
          (a * base ^ (numDigits base fuel ((m + 1) / base) + 1) + (m + 1))
    rw [parseCore_toDigitsAux isDig dv base hbase hdig hval fuel _ _ _ hq]
    have hmod : (m + 1) % base < base := Nat.mod_lt _ (by omega)
    show (if isDig (digitChar ((m + 1) % base)) then
        parseCore isDig dv base acc
          (base * (a * base ^ numDigits base fuel ((m + 1) / base) + (m + 1) / base)
            + dv (digitChar ((m + 1) % base)))
      else none)
      = parseCore isDig dv base acc
          (a * base ^ (numDigits base fuel ((m + 1) / base) + 1) + (m + 1))
    rw [hdig _ hmod, if_pos rfl, hval _ hmod]
    congr 1
    have hdm := Nat.div_add_mod (m + 1) base
    calc base * (a * base ^ numDigits base fuel ((m + 1) / base) + (m + 1) / base)
          + (m + 1) % base
        = a * (base ^ numDigits base fuel ((m + 1) / base) * base)
            + (base * ((m + 1) / base) + (m + 1) % base) := by ring
      _ = a * base ^ (numDigits base fuel ((m + 1) / base) + 1) + (m + 1) := by
          rw [hdm, pow_succ]

theorem hexVal_digitChar : ∀ d, d < 16 → hexVal (digitChar d) = d := by decide

theorem isHexDigit_digitChar : ∀ d, d < 16 → isHexDigit (digitChar d) = true := by
  decide

theorem decVal_digitChar : ∀ d, d < 10 → decVal (digitChar d) = d := by decide

theorem isDecDigit_digitChar : ∀ d, d < 10 → isDecDigit (digitChar d) = true := by
  decide

theorem parseHexDigits_of_ne_nil (s : List Char) (h : s ≠ []) :
    parseHexDigits s = parseHexCore s 0 := by
  cases s with
  | nil => exact absurd rfl h
  | cons c cs => rfl

theorem parseDecDigits_of_ne_nil (s : List Char) (h : s ≠ []) :
    parseDecDigits s = parseDecCore s 0 := by
  cases s with
  | nil => exact absurd rfl h
  | cons c cs => rfl

/-- Hexadecimal round trip: parsing the minimal hex rendering of `n`
recovers `n`. -/
theorem parseHexDigits_toDigitsBase (n : Nat) :
    parseHexDigits (toDigitsBase 16 n) = some n := by
  by_cases h0 : n = 0
  · subst h0; decide
  · unfold toDigitsBase
    rw [if_neg h0]
    match n, h0 with
    | m + 1, _ =>
      rw [parseHexDigits_of_ne_nil _ (toDigitsAux_ne_nil 16 m m [])]
      unfold parseHexCore
      rw [parseCore_toDigitsAux isHexDigit hexVal 16 (by norm_num)
        isHexDigit_digitChar hexVal_digitChar (m + 1) (m + 1) [] 0 (Nat.le_refl _)]
      simp [parseCore]

/-- Decimal round trip: parsing the minimal decimal rendering of `n`
recovers `n`. -/
theorem parseDecDigits_toDigitsBase (n : Nat) :
    parseDecDigits (toDigitsBase 10 n) = some n := by
  by_cases h0 : n = 0
  · subst h0; decide
  · unfold toDigitsBase
    rw [if_neg h0]
    match n, h0 with
    | m + 1, _ =>
      rw [parseDecDigits_of_ne_nil _ (toDigitsAux_ne_nil 10 m m [])]
      unfold parseDecCore
      rw [parseCore_toDigitsAux isDecDigit decVal 10 (by norm_num)
        isDecDigit_digitChar decVal_digitChar (m + 1) (m + 1) [] 0 (Nat.le_refl _)]
      simp [parseCore]

/-- Every character in the digit rendering comes from `digitChar` of a value
below the base (or from the seed accumulator). -/
theorem mem_toDigitsAux (base : Nat) (hbase : 2 ≤ base) :
    ∀ fuel n acc c, c ∈ toDigitsAux base fuel n acc →
      c ∈ acc ∨ ∃ d, d < base ∧ c = digitChar d
  | 0, n, acc, c, hc => Or.inl hc
  | fuel + 1, 0, acc, c, hc => Or.inl hc
  | fuel + 1, m + 1, acc, c, hc => by
    have hc' : c ∈ toDigitsAux base fuel ((m + 1) / base)
        (digitChar ((m + 1) % base) :: acc) := hc
    rcases mem_toDigitsAux base hbase fuel _ _ _ hc' with h | h
    · rcases List.mem_cons.mp h with h | h
      · exact Or.inr ⟨(m + 1) % base, Nat.mod_lt _ (by omega), h⟩
      · exact Or.inl h
    · exact Or.inr h

/-- Every character of the minimal decimal rendering is a decimal digit. -/
theorem isDecDigit_of_mem_decRepr (n : Nat) (c : Char)
    (hc : c ∈ toDigitsBase 10 n) : isDecDigit c = true := by
  unfold toDigitsBase at hc
  by_cases h0 : n = 0
  · rw [if_pos h0] at hc
    simp at hc
    subst hc; decide
  · rw [if_neg h0] at hc
    rcases mem_toDigitsAux 10 (by norm_num) n n [] c hc with h | ⟨d, hd, rfl⟩
    · simp at h
    · exact isDecDigit_digitChar d hd

theorem toDigitsBase_ne_nil (base n : Nat) : toDigitsBase base n ≠ [] := by
  unfold toDigitsBase
  by_cases h0 : n = 0
  · rw [if_pos h0]; simp
  · rw [if_neg h0]
    match n, h0 with
    | m + 1, _ => exact toDigitsAux_ne_nil base m m []

/-- Every character of the minimal hex rendering is a (lowercase) hex
digit. -/
theorem isHexDigit_of_mem_toHex (n : Nat) (c : Char)
    (hc : c ∈ toDigitsBase 16 n) : isHexDigit c = true := by
  unfold toDigitsBase at hc
  by_cases h0 : n = 0
  · rw [if_pos h0] at hc
    simp at hc
    subst hc; decide
  · rw [if_neg h0] at hc
    rcases mem_toDigitsAux 16 (by norm_num) n n [] c hc with h | ⟨d, hd, rfl⟩
    · simp at h
    · exact isHexDigit_digitChar d hd

/-- When every character is a valid digit, the accumulating parser succeeds
and computes the left fold. -/
theorem parseCore_eq_foldl (isDig : Char → Bool) (dv : Char → Nat)
    (base : Nat) :
    ∀ (ds : List Char) (a : Nat), (∀ c ∈ ds, isDig c = true) →
      parseCore isDig dv base ds a =
        some (ds.foldl (fun x c => base * x + dv c) a)
  | [], a, _ => rfl
  | c :: cs, a, h => by
    have hc : isDig c = true := h c (List.mem_cons_self c cs)
    show (if isDig c then parseCore isDig dv base cs (base * a + dv c) else none)
        = _
    rw [hc, if_pos rfl,
      parseCore_eq_foldl isDig dv base cs _ (fun x hx => h x (List.mem_cons_of_mem c hx))]
    rfl

/-! ## `pkg/rpc/client.go`: `HexToUint64`

```go
func HexToUint64(hex string) (uint64, error) {
    if hex == "0x0" { return 0, nil }
    if len(hex) >= 2 && hex[0:2] == "0x" { hex = hex[2:] }
    value := new(big.Int)
    value, ok := value.SetString(hex, 16)
    if !ok { return 0, fmt.Errorf("invalid hex value: %s", hex) }
    if !value.IsUint64() { return 0, fmt.Errorf("hex value too large for uint64: %s", hex) }
    return value.Uint64(), nil
}
```
-/

/-- Errors of `HexToUint64`; each carries the (post-strip) string that the
corresponding `fmt.Errorf` interpolates. -/
inductive HexError where
  | invalidHex (s : String)
  | overflow (s : String)
deriving DecidableEq, Repr

deriving instance DecidableEq for Except

/-- The prefix strip `if len(hex) >= 2 && hex[0:2] == "0x" { hex = hex[2:] }`
(only the lowercase prefix is stripped). -/
def strip0x : List Char → List Char
  | '0' :: 'x' :: rest => rest
  | l => l

/-- Model of `big.Int.SetString(s, 16)`: an optional leading sign followed by a
non-empty run of hex digits (no base prefix and no underscores are accepted
when an explicit base is given). -/
def bigIntSetString16 (s : List Char) : Option Int :=
  match s with
  | [] => none
  | c :: cs =>
    if c = '+' then (parseHexDigits cs).map (fun n => (n : Int))
    else if c = '-' then (parseHexDigits cs).map (fun n => -(n : Int))
    else (parseHexDigits (c :: cs)).map (fun n => (n : Int))

/-- Embedding of `rpc.HexToUint64`. `big.Int.IsUint64` holds exactly when
`0 ≤ v < 2^64`. -/
def hexToUint64 (hex : String) : Except HexError Nat :=
  if hex = "0x0" then .ok 0
  else
    match bigIntSetString16 (strip0x hex.data) with
    | none => .error (.invalidHex ⟨strip0x hex.data⟩)
    | some v =>
      if 0 ≤ v ∧ v < 2 ^ 64 then .ok v.toNat
      else .error (.overflow ⟨strip0x hex.data⟩)

/-- Value of a hex-digit string (most significant digit first). -/
def hexListVal (ds : List Char) : Nat :=
  ds.foldl (fun a c => 16 * a + hexVal c) 0

theorem strip0x_cons (rest : List Char) : strip0x ('0' :: 'x' :: rest) = rest := rfl

theorem bigIntSetString16_of_head_digit (c : Char) (cs : List Char)
    (h : isHexDigit c = true) :
    bigIntSetString16 (c :: cs) =
      (parseHexDigits (c :: cs)).map (fun n => (n : Int)) := by
  have h1 : c ≠ '+' := by rintro rfl; simp [isHexDigit, isDecDigit] at h
  have h2 : c ≠ '-' := by rintro rfl; simp [isHexDigit, isDecDigit] at h
  simp only [bigIntSetString16]
  rw [if_neg h1, if_neg h2]

/-- Parsing the hex rendering of `n` through `big.Int.SetString` recovers
`n` (as a non-negative big integer). -/
theorem bigIntSetString16_toDigitsBase (n : Nat) :
    bigIntSetString16 (toDigitsBase 16 n) = some (n : Int) := by
  match hl : toDigitsBase 16 n with
  | [] => exact absurd hl (toDigitsBase_ne_nil 16 n)
  | c :: cs =>
    have hc : isHexDigit c = true := by
      apply isHexDigit_of_mem_toHex n
      rw [hl]; exact List.mem_cons_self c cs
    rw [bigIntSetString16_of_head_digit c cs hc, ← hl,
      parseHexDigits_toDigitsBase n]
    rfl

/-- C8: `HexToUint64` round-trips every 64-bit value: for every
`n < 2^64`, `hexToUint64 ("0x" ++ toHex n) = .ok n`; in particular
`hexToUint64 "0x0" = .ok 0`; and every `"0x"`-prefixed string of hex digits
denoting a value of 65 or more bits fails with the overflow error. -/
theorem C8_hexToUint64_roundtrip_and_overflow :
    (∀ n : Nat, n < 2 ^ 64 → hexToUint64 ("0x" ++ toHex n) = .ok n) ∧
    hexToUint64 "0x0" = .ok 0 ∧
    (∀ ds : List Char, ds ≠ [] → (∀ c ∈ ds, isHexDigit c = true) →
      2 ^ 64 ≤ hexListVal ds →
      hexToUint64 ⟨'0' :: 'x' :: ds⟩ = .error (.overflow ⟨ds⟩)) := by
  refine ⟨?_, by decide, ?_⟩
  · intro n hn
    by_cases h0 : n = 0
    · subst h0; decide
    · have hdata : ("0x" ++ toHex n).data = '0' :: 'x' :: toDigitsBase 16 n := by
        rw [String.data_append]; rfl
      have hne : ("0x" ++ toHex n) ≠ "0x0" := by
        intro he
        have hd : '0' :: 'x' :: toDigitsBase 16 n = "0x0".data := by
          rw [← hdata, he]
        have h1 : toDigitsBase 16 n = ['0'] := by
          have : "0x0".data = ['0', 'x', '0'] := rfl
          rw [this] at hd
          exact (List.cons.injEq _ _ _ _).mp ((List.cons.injEq _ _ _ _).mp hd).2 |>.2
        have hrt := parseHexDigits_toDigitsBase n
        rw [h1] at hrt
        have h2 : parseHexDigits ['0'] = some 0 := by decide
        rw [h2] at hrt
        exact h0 (Option.some.inj hrt).symm
      unfold hexToUint64
      rw [if_neg hne, hdata, strip0x_cons, bigIntSetString16_toDigitsBase]
      have hok : (0 : Int) ≤ (n : Int) ∧ (n : Int) < 2 ^ 64 := by
        constructor
        · exact Int.ofNat_nonneg n
        · exact_mod_cast hn
      simp [hok]
      calc n < 2 ^ 64 := hn
        _ = 18446744073709551616 := by norm_num
  · intro ds hne hdig hval
    obtain ⟨c, cs, rfl⟩ := List.exists_cons_of_ne_nil hne
    have hne0 : (⟨'0' :: 'x' :: c :: cs⟩ : String) ≠ "0x0" := by
      intro he
      have hd : '0' :: 'x' :: c :: cs = ['0', 'x', '0'] := by
        have := congrArg String.data he
        exact this
      have hcs : c :: cs = ['0'] :=
        ((List.cons.injEq _ _ _ _).mp ((List.cons.injEq _ _ _ _).mp hd).2).2
      rw [hcs] at hval
      have : hexListVal ['0'] = 0 := by decide
      rw [this] at hval
      omega
    have hparse : parseHexDigits (c :: cs) = some (hexListVal (c :: cs)) := by
      rw [parseHexDigits_of_ne_nil _ (by simp)]
      unfold parseHexCore
      rw [parseCore_eq_foldl isHexDigit hexVal 16 (c :: cs) 0 hdig]
      rfl
    unfold hexToUint64
    rw [if_neg hne0]
    have hdata : (⟨'0' :: 'x' :: c :: cs⟩ : String).data = '0' :: 'x' :: c :: cs := rfl
    rw [hdata, strip0x_cons,
      bigIntSetString16_of_head_digit c cs (hdig c (List.mem_cons_self c cs)),
      hparse]
    have hnotok : ¬((0 : Int) ≤ (hexListVal (c :: cs) : Int) ∧
        (hexListVal (c :: cs) : Int) < 2 ^ 64) := by
      rintro ⟨-, hlt⟩
      have h2 : ((2 : Int) ^ 64) ≤ (hexListVal (c :: cs) : Int) := by
        exact_mod_cast hval
      omega
    simp [hnotok]
    calc (18446744073709551616 : Nat) = 2 ^ 64 := by norm_num
      _ ≤ hexListVal (c :: cs) := hval

/-- Witness for C8 at `n = 12345` and at the 65-bit value `2^64`
(`"0x10000000000000000"`). -/
theorem C8_witness :
    (12345 < 2 ^ 64 ∧ hexToUint64 ("0x" ++ toHex 12345) = .ok 12345) ∧
    hexToUint64 "0x10000000000000000" =
      .error (.overflow "10000000000000000") := by
  constructor
  · exact ⟨by norm_num,
      C8_hexToUint64_roundtrip_and_overflow.1 12345 (by norm_num)⟩
  · exact C8_hexToUint64_roundtrip_and_overflow.2.2 "10000000000000000".data
      (by decide) (by decide) (by decide)

/-! ## `pkg/api/client.go`: `WaitForProof`

```go
func (c *Client) WaitForProof(jobID string, maxAttempts int, interval time.Duration) (*ProofStatusResponse, error) {
    for attempt := 0; attempt < maxAttempts; attempt++ {
        status, err := c.GetProofStatus(jobID)
        if err != nil { return nil, err }
        switch status.Status {
        case "complete", "completed": return status, nil
        case "failed": return nil, fmt.Errorf("proof generation failed: %s", status.Error)
        case "pending", "processing": time.Sleep(interval)
        default: return nil, fmt.Errorf("unknown job status: %s", status.Status)
        }
    }
    return nil, fmt.Errorf("max polling attempts (%d) reached without completion", maxAttempts)
}
```

The remote side is modelled by an observation sequence `getStatus i`: the
result of the `c.GetProofStatus(jobID)` call made on attempt `i` (0-based).
Besides the Go return value, the model records the number of status
observations made and the list of sleep durations performed, in order.
`maxAttempts` is a Go `int`; a non-positive value never enters the loop
body, which coincides with the model at `maxAttempts = 0`.
-/

/-- Record `api.ProofStatusResponse`. The `proof` blob is kept as its raw JSON
text. -/
structure ProofStatusResponse where
  status : String
  proof : String
  error : String
deriving DecidableEq, Repr

/-- Errors `WaitForProof` can return; each carries what the corresponding
`fmt.Errorf` interpolates. -/
inductive WaitError where
  /-- an error propagated unchanged from `GetProofStatus` -/
  | getStatus (e : String)
  /-- `"proof generation failed: %s"` with the remote error message -/
  | proofFailed (msg : String)
  /-- `"unknown job status: %s"` -/
  | unknownStatus (s : String)
  /-- `"max polling attempts (%d) reached without completion"` -/
  | pollingTimeout (maxAttempts : Nat)
deriving DecidableEq, Repr

/-- The message text of a `WaitError`, exactly as `fmt.Errorf` renders it. -/
def WaitError.message : WaitError → String
  | .getStatus e => e
  | .proofFailed msg => "proof generation failed: " ++ msg
  | .unknownStatus s => "unknown job status: " ++ s
  | .pollingTimeout m =>
    "max polling attempts (" ++ decRepr m ++ ") reached without completion"

/-- The loop of `WaitForProof`, starting at attempt `attempt` with
`fuel = maxAttempts - attempt` iterations left (the loop guard
`attempt < maxAttempts` holds exactly when `fuel > 0`). Returns the Go
result, the number of status observations, and the sleeps performed. -/
def waitLoop (getStatus : Nat → Except String ProofStatusResponse)
    (maxAttempts interval : Nat) :
    Nat → Nat → Except WaitError ProofStatusResponse × Nat × List Nat
  | _, 0 => (.error (.pollingTimeout maxAttempts), 0, [])
  | attempt, fuel + 1 =>
    match getStatus attempt with
    | .error e => (.error (.getStatus e), 1, [])
    | .ok st =>
      if st.status = "complete" ∨ st.status = "completed" then (.ok st, 1, [])
      else if st.status = "failed" then (.error (.proofFailed st.error), 1, [])
      else if st.status = "pending" ∨ st.status = "processing" then
        let r := waitLoop getStatus maxAttempts interval (attempt + 1) fuel
        (r.1, r.2.1 + 1, interval :: r.2.2)
      else (.error (.unknownStatus st.status), 1, [])

/-- Embedding of `api.WaitForProof`: the loop entered at attempt 0. -/
def waitForProof (getStatus : Nat → Except String ProofStatusResponse)
    (maxAttempts interval : Nat) :
    Except WaitError ProofStatusResponse × Nat × List Nat :=
  waitLoop getStatus maxAttempts interval 0 maxAttempts

/-- A status string on which the loop keeps polling. -/
def isContinueStatus (s : String) : Prop := s = "pending" ∨ s = "processing"

/-- A status string that is terminal success. -/
def isSuccessStatus (s : String) : Prop := s = "complete" ∨ s = "completed"

/-- Running the loop over `k` continue-statuses followed by a terminal
success makes `k + 1` observations and `k` sleeps of the interval. -/
theorem waitLoop_nonterminal_then_success
    (g : Nat → Except String ProofStatusResponse) (maxA interval : Nat)
    (s : ProofStatusResponse) :
    ∀ (k attempt fuel : Nat), k < fuel →
      (∀ i, i < k → ∃ si, g (attempt + i) = .ok si ∧ isContinueStatus si.status) →
      g (attempt + k) = .ok s → isSuccessStatus s.status →
      waitLoop g maxA interval attempt fuel =
        (.ok s, k + 1, List.replicate k interval) := by
  intro k
  induction k with
  | zero =>
    intro attempt fuel hk hpend hterm hsucc
    match fuel, hk with
    | fuel + 1, _ =>
      rw [Nat.add_zero] at hterm
      rcases hsucc with h | h <;>
        simp [waitLoop, hterm, h]
  | succ k ih =>
    intro attempt fuel hk hpend hterm hsucc
    match fuel, hk with
    | fuel + 1, _ =>
      obtain ⟨s0, hg0, hc0⟩ := hpend 0 (Nat.succ_pos k)
      rw [Nat.add_zero] at hg0
      have hrec := ih (attempt + 1) fuel (by omega)
        (fun i hi => by
          have := hpend (i + 1) (by omega)
          rwa [show attempt + (i + 1) = attempt + 1 + i by omega] at this)
        (by rwa [show attempt + 1 + k = attempt + (k + 1) by omega])
        hsucc
      have hnotsucc : ¬(s0.status = "complete" ∨ s0.status = "completed") := by
        rcases hc0 with h | h <;> simp [h]
      have hnotfail : ¬s0.status = "failed" := by
        rcases hc0 with h | h <;> simp [h]
      have hcont : s0.status = "pending" ∨ s0.status = "processing" := hc0
      show (match g attempt with
        | .error e => (.error (.getStatus e), 1, [])
        | .ok st =>
          if st.status = "complete" ∨ st.status = "completed" then (.ok st, 1, [])
          else if st.status = "failed" then (.error (.proofFailed st.error), 1, [])
          else if st.status = "pending" ∨ st.status = "processing" then
            let r := waitLoop g maxA interval (attempt + 1) fuel
            (r.1, r.2.1 + 1, interval :: r.2.2)
          else (.error (.unknownStatus st.status), 1, []))
        = (.ok s, k + 1 + 1, List.replicate (k + 1) interval)
      rw [hg0]
      simp only [if_neg hnotsucc, if_neg hnotfail, if_pos hcont, hrec,
        List.replicate_succ]

/-- Running the loop with every remaining observation a continue-status
exhausts the fuel: `fuel` observations, `fuel` sleeps, timeout naming
`maxAttempts`. -/
theorem waitLoop_all_nonterminal
    (g : Nat → Except String ProofStatusResponse) (maxA interval : Nat) :
    ∀ (fuel attempt : Nat),
      (∀ i, i < fuel → ∃ si, g (attempt + i) = .ok si ∧ isContinueStatus si.status) →
      waitLoop g maxA interval attempt fuel =
        (.error (.pollingTimeout maxA), fuel, List.replicate fuel interval) := by
  intro fuel
  induction fuel with
  | zero => intro attempt _; rfl
  | succ fuel ih =>
    intro attempt hpend
    obtain ⟨s0, hg0, hc0⟩ := hpend 0 (Nat.succ_pos fuel)
    rw [Nat.add_zero] at hg0
    have hrec := ih (attempt + 1) (fun i hi => by
      have := hpend (i + 1) (by omega)
      rwa [show attempt + (i + 1) = attempt + 1 + i by omega] at this)
    have hnotsucc : ¬(s0.status = "complete" ∨ s0.status = "completed") := by
      rcases hc0 with h | h <;> simp [h]
    have hnotfail : ¬s0.status = "failed" := by
      rcases hc0 with h | h <;> simp [h]
    have hcont : s0.status = "pending" ∨ s0.status = "processing" := hc0
    show (match g attempt with
      | .error e => (.error (.getStatus e), 1, [])
      | .ok st =>
        if st.status = "complete" ∨ st.status = "completed" then (.ok st, 1, [])
        else if st.status = "failed" then (.error (.proofFailed st.error), 1, [])
        else if st.status = "pending" ∨ st.status = "processing" then
          let r := waitLoop g maxA interval (attempt + 1) fuel
          (r.1, r.2.1 + 1, interval :: r.2.2)
        else (.error (.unknownStatus st.status), 1, []))
      = (.error (.pollingTimeout maxA), fuel + 1, List.replicate (fuel + 1) interval)
    rw [hg0]
    simp only [if_neg hnotsucc, if_neg hnotfail, if_pos hcont, hrec,
      List.replicate_succ]

/-- One unfolding of the loop while the guard still holds. -/
theorem waitLoop_succ_eq (g : Nat → Except String ProofStatusResponse)
    (maxA interval attempt fuel : Nat) :
    waitLoop g maxA interval attempt (fuel + 1) =
      match g attempt with
      | .error e => (.error (.getStatus e), 1, [])
      | .ok st =>
        if st.status = "complete" ∨ st.status = "completed" then (.ok st, 1, [])
        else if st.status = "failed" then
          (.error (.proofFailed st.error), 1, [])
        else if st.status = "pending" ∨ st.status = "processing" then
          let r := waitLoop g maxA interval (attempt + 1) fuel
          (r.1, r.2.1 + 1, interval :: r.2.2)
        else (.error (.unknownStatus st.status), 1, []) := rfl

/-- C2: When the first `k` observations are non-terminal
(pending/processing) and observation `k` is terminal success, with
`k < maxAttempts`, `WaitForProof` returns that success after exactly `k + 1`
observations and `k` sleeps of the given interval; observations stop at the
first terminal status. -/
theorem C2_waitForProof_success_counts
    (g : Nat → Except String ProofStatusResponse) (maxA interval k : Nat)
    (s : ProofStatusResponse) (hk : k < maxA)
    (hpend : ∀ i, i < k → ∃ si, g i = .ok si ∧ isContinueStatus si.status)
    (hterm : g k = .ok s) (hsucc : isSuccessStatus s.status) :
    waitForProof g maxA interval = (.ok s, k + 1, List.replicate k interval) := by
  unfold waitForProof
  exact waitLoop_nonterminal_then_success g maxA interval s k 0 maxA hk
    (fun i hi => by simpa using hpend i hi) (by simpa using hterm) hsucc

/-- Observation sequence `[pending, pending, completed, completed, ...]`. -/
def obsPPC : Nat → Except String ProofStatusResponse := fun i =>
  if i < 2 then .ok ⟨"pending", "", ""⟩ else .ok ⟨"completed", "0xproof", ""⟩

/-- Witness for C2: sequence `[pending, pending, completed]` with
`maxAttempts = 5` and interval 7 gives success after 3 observations and
2 sleeps of the interval. -/
theorem C2_witness :
    waitForProof obsPPC 5 7 = (.ok ⟨"completed", "0xproof", ""⟩, 3, [7, 7]) := by
  have h := C2_waitForProof_success_counts obsPPC 5 7 2
    ⟨"completed", "0xproof", ""⟩ (by norm_num)
    (fun i hi => ⟨⟨"pending", "", ""⟩, by interval_cases i <;> rfl, Or.inl rfl⟩)
    rfl (Or.inr rfl)
  simpa using h

/-- C3: When every observation up to `maxAttempts` is non-terminal,
`WaitForProof` fails with the polling-timeout error after exactly
`maxAttempts` observations, and the error message names the attempt
count. -/
theorem C3_waitForProof_timeout
    (g : Nat → Except String ProofStatusResponse) (maxA interval : Nat)
    (hpend : ∀ i, i < maxA → ∃ si, g i = .ok si ∧ isContinueStatus si.status) :
    waitForProof g maxA interval =
      (.error (.pollingTimeout maxA), maxA, List.replicate maxA interval) ∧
    (WaitError.pollingTimeout maxA).message =
      "max polling attempts (" ++ decRepr maxA ++ ") reached without completion" := by
  refine ⟨?_, rfl⟩
  unfold waitForProof
  exact waitLoop_all_nonterminal g maxA interval maxA 0
    (fun i hi => by simpa using hpend i hi)

/-- Observation sequence that is always `pending`. -/
def obsAllPending : Nat → Except String ProofStatusResponse := fun _ =>
  .ok ⟨"pending", "", ""⟩

/-- Witness for C3: all-pending with `maxAttempts = 3` times out after
exactly 3 observations and the message cites `3`. -/
theorem C3_witness :
    waitForProof obsAllPending 3 50 =
      (.error (.pollingTimeout 3), 3, [50, 50, 50]) ∧
    (WaitError.pollingTimeout 3).message =
      "max polling attempts (3) reached without completion" := by
  have h := C3_waitForProof_timeout obsAllPending 3 50
    (fun i hi => ⟨⟨"pending", "", ""⟩, rfl, Or.inl rfl⟩)
  refine ⟨by simpa using h.1, ?_⟩
  rw [h.2]
  decide

/-- C4: Observing a `failed` status on the first attempt returns
terminal failure immediately: one observation, no sleeps, and the error
carries the remote-supplied error message. -/
theorem C4_waitForProof_failed_first
    (g : Nat → Except String ProofStatusResponse) (maxA interval : Nat)
    (s : ProofStatusResponse) (hA : 0 < maxA) (hg : g 0 = .ok s)
    (hf : s.status = "failed") :
    waitForProof g maxA interval = (.error (.proofFailed s.error), 1, []) ∧
    (WaitError.proofFailed s.error).message =
      "proof generation failed: " ++ s.error := by
  refine ⟨?_, rfl⟩
  unfold waitForProof
  match maxA, hA with
  | m + 1, _ =>
    rw [waitLoop_succ_eq, hg]
    have hnot : ¬(s.status = "complete" ∨ s.status = "completed") := by
      simp [hf]
    simp only [if_neg hnot, if_pos hf]

/-- Observation sequence that fails immediately with a remote message. -/
def obsFailed : Nat → Except String ProofStatusResponse := fun _ =>
  .ok ⟨"failed", "", "out of gas"⟩

/-- Witness for C4: `failed` on the first attempt with `maxAttempts = 5`
returns after 1 observation, 0 sleeps, carrying the remote message. -/
theorem C4_witness :
    waitForProof obsFailed 5 9 = (.error (.proofFailed "out of gas"), 1, []) ∧
    (WaitError.proofFailed "out of gas").message =
      "proof generation failed: out of gas" := by
  have h := C4_waitForProof_failed_first obsFailed 5 9
    ⟨"failed", "", "out of gas"⟩ (by norm_num) rfl rfl
  exact h

/-- C5: Classification of the first observed status: `complete` and
`completed` are terminal success; `failed` is terminal failure; `pending`
and `processing` continue into the next loop iteration (one sleep recorded);
every other status string is terminal failure with the unknown-status error
and no further polling. -/
theorem C5_waitForProof_status_classification
    (g : Nat → Except String ProofStatusResponse) (maxA interval : Nat)
    (s : ProofStatusResponse) (hA : 0 < maxA) (hg : g 0 = .ok s) :
    (isSuccessStatus s.status →
      waitForProof g maxA interval = (.ok s, 1, [])) ∧
    (s.status = "failed" →
      waitForProof g maxA interval = (.error (.proofFailed s.error), 1, [])) ∧
    (isContinueStatus s.status →
      waitForProof g maxA interval =
        ((waitLoop g maxA interval 1 (maxA - 1)).1,
         (waitLoop g maxA interval 1 (maxA - 1)).2.1 + 1,
         interval :: (waitLoop g maxA interval 1 (maxA - 1)).2.2)) ∧
    (¬isSuccessStatus s.status → ¬isContinueStatus s.status →
      s.status ≠ "failed" →
      waitForProof g maxA interval =
        (.error (.unknownStatus s.status), 1, [])) := by
  match maxA, hA with
  | m + 1, _ =>
    unfold waitForProof
    rw [waitLoop_succ_eq, hg]
    refine ⟨?_, ?_, ?_, ?_⟩
    · intro hsucc
      have hsucc' : s.status = "complete" ∨ s.status = "completed" := hsucc
      simp only [if_pos hsucc']
    · intro hf
      have hnot : ¬(s.status = "complete" ∨ s.status = "completed") := by
        simp [hf]
      simp only [if_neg hnot, if_pos hf]
    · intro hcont
      have hcont' : s.status = "pending" ∨ s.status = "processing" := hcont
      have hnotsucc : ¬(s.status = "complete" ∨ s.status = "completed") := by
        rcases hcont' with h | h <;> simp [h]
      have hnotfail : ¬s.status = "failed" := by
        rcases hcont' with h | h <;> simp [h]
      simp only [if_neg hnotsucc, if_neg hnotfail, if_pos hcont',
        Nat.add_sub_cancel, Nat.zero_add]
    · intro h1 h2 h3
      have h1' : ¬(s.status = "complete" ∨ s.status = "completed") := h1
      have h2' : ¬(s.status = "pending" ∨ s.status = "processing") := h2
      simp only [if_neg h1', if_neg h3, if_neg h2']

/-- Observation sequence with an unrecognized status string. -/
def obsUnknown : Nat → Except String ProofStatusResponse := fun _ =>
  .ok ⟨"exploded", "", ""⟩

/-- Witness for C5 at the unknown-status row: status `"exploded"` is
terminal failure after 1 observation and 0 sleeps. -/
theorem C5_witness :
    waitForProof obsUnknown 4 9 = (.error (.unknownStatus "exploded"), 1, []) := by
  exact (C5_waitForProof_status_classification obsUnknown 4 9
      ⟨"exploded", "", ""⟩ (by norm_num) rfl).2.2.2
    (by simp [isSuccessStatus]) (by simp [isContinueStatus]) (by simp)

/-! ## `pkg/rpc/client.go`: `GetEventSignatureHash` (Keccak-256)

```go
func (c *RPCClient) GetEventSignatureHash(eventSignature string) (string, error) {
    hasher := sha3.NewLegacyKeccak256()
    _, err := hasher.Write([]byte(eventSignature))
    if err != nil { ... }
    hash := hasher.Sum(nil)
    hexHash := "0x" + hex.EncodeToString(hash)
    return hexHash, nil
}
```

`sha3.NewLegacyKeccak256` is the original Keccak-256 (rate 1088 bits, output
256 bits, multi-rate padding with suffix byte `0x01`), which we implement
here in full. Lanes are `Nat` values kept below `2^64`; the state is a flat
list of 25 lanes with lane `(x, y)` at index `x + 5y`. The `hasher.Write`
call never returns an error, so the Go error return is always nil and the
function is pure. `[]byte(eventSignature)` is the UTF-8 encoding of the
string. -/

/-- Truncation to a 64-bit lane. -/
def mask64 (n : Nat) : Nat := n % (2 ^ 64)

/-- 64-bit bitwise complement. -/
def not64 (v : Nat) : Nat := v ^^^ (2 ^ 64 - 1)

/-- 64-bit left rotation. -/
def rotl64 (n r : Nat) : Nat :=
  mask64 ((n <<< (r % 64)) ||| (n >>> (64 - r % 64)))

/-- Lane read with default 0. -/
def lget (A : List Nat) (i : Nat) : Nat := A.getD i 0

/-- Flat index of lane `(x, y)`. -/
def lidx (x y : Nat) : Nat := x % 5 + 5 * (y % 5)

/-- Keccak θ step. -/
def theta (A : List Nat) : List Nat :=
  let C := fun x => lget A (lidx x 0) ^^^ lget A (lidx x 1) ^^^ lget A (lidx x 2)
    ^^^ lget A (lidx x 3) ^^^ lget A (lidx x 4)
  let D := fun x => C ((x + 4) % 5) ^^^ rotl64 (C ((x + 1) % 5)) 1
  (List.range 25).map fun i => lget A i ^^^ D (i % 5)

/-- Keccak ρ rotation offsets, indexed by `x + 5y`. -/
def rhoOffsets : List Nat :=
  [0x0, 0x1, 0x3e, 0x1c, 0x1b, 0x24, 0x2c, 0x6, 0x37, 0x14, 0x3, 0xa,
   0x2b, 0x19, 0x27, 0x29, 0x2d, 0xf, 0x15, 0x8, 0x12, 0x2, 0x3d, 0x38, 0xe]

/-- Keccak ρ and π steps combined: `B[y, 2x+3y] = rotl(A[x, y], r[x, y])`,
written from the output position `(X, Y)`, whose source is
`(x, y) = ((X + 3Y) % 5, X)`. -/
def rhoPi (A : List Nat) : List Nat :=
  (List.range 25).map fun j =>
    let X := j % 5
    let Y := j / 5
    let x := (X + 3 * Y) % 5
    let y := X
    rotl64 (lget A (lidx x y)) (lget rhoOffsets (lidx x y))

/-- Keccak χ step. -/
def chi (A : List Nat) : List Nat :=
  (List.range 25).map fun j =>
    let x := j % 5
    let y := j / 5
    lget A j ^^^ (not64 (lget A (lidx (x + 1) y)) &&& lget A (lidx (x + 2) y))

/-- Keccak round constants for ι. -/
def roundConstants : List Nat :=
  [1, 32898, 9223372036854808714,
   9223372039002292224, 32907, 2147483649,
   9223372039002292353, 9223372036854808585, 138,
   136, 2147516425, 2147483658,
   2147516555, 9223372036854775947, 9223372036854808713,
   9223372036854808579, 9223372036854808578, 9223372036854775936,
   32778, 9223372039002259466, 9223372039002292353,
   9223372036854808704, 2147483649, 9223372039002292232]

/-- One Keccak-f round (θ, ρ, π, χ, ι). -/
def keccakRound (A : List Nat) (rc : Nat) : List Nat :=
  let B := chi (rhoPi (theta A))
  B.set 0 (lget B 0 ^^^ rc)

/-- The Keccak-f[1600] permutation: 24 rounds. -/
def keccakF (A : List Nat) : List Nat := roundConstants.foldl keccakRound A

/-- Multi-rate padding with suffix `0x01` (legacy Keccak): append `0x01`,
zero fill, set the top bit of the final byte of the block. -/
def padKeccak (msg : List Nat) (rate : Nat) : List Nat :=
  let padLen := rate - msg.length % rate
  if padLen = 1 then msg ++ [0x81]
  else msg ++ [0x01] ++ List.replicate (padLen - 2) 0 ++ [0x80]

/-- A lane from (up to) 8 bytes, little-endian. -/
def bytesToLane (bs : List Nat) : Nat :=
  bs.foldr (fun b acc => acc * 256 + b) 0

/-- XOR one 136-byte block into the state and permute. -/
def absorbBlock (A : List Nat) (block : List Nat) : List Nat :=
  let lanes := (List.range 17).map fun i => bytesToLane ((block.drop (8 * i)).take 8)
  keccakF ((List.range 25).map fun j =>
    if j < 17 then lget A j ^^^ lget lanes j else lget A j)

/-- Absorb a padded message block by block (`fuel` bounds the number of
blocks; any `fuel ≥ msg.length` is enough). -/
def absorb : Nat → List Nat → List Nat → List Nat
  | 0, A, _ => A
  | _ + 1, A, [] => A
  | fuel + 1, A, msg =>
    absorb fuel (absorbBlock A (msg.take 136)) (msg.drop 136)

/-- The 8 bytes of a lane, little-endian. -/
def laneBytes (v : Nat) : List Nat :=
  (List.range 8).map fun i => v / 256 ^ i % 256

/-- Keccak-256 of a byte string: pad, absorb at rate 136, squeeze 32
bytes. -/
def keccak256Bytes (msg : List Nat) : List Nat :=
  let A := absorb (msg.length + 1) (List.replicate 25 0) (padKeccak msg 136)
  (List.range 4).flatMap fun i => laneBytes (lget A i)

/-- UTF-8 encoding of one character. -/
def utf8Bytes (c : Char) : List Nat :=
  let n := c.toNat
  if n < 0x80 then [n]
  else if n < 0x800 then
    [0xC0 ||| (n >>> 6), 0x80 ||| (n &&& 0x3F)]
  else if n < 0x10000 then
    [0xE0 ||| (n >>> 12), 0x80 ||| ((n >>> 6) &&& 0x3F), 0x80 ||| (n &&& 0x3F)]
  else
    [0xF0 ||| (n >>> 18), 0x80 ||| ((n >>> 12) &&& 0x3F),
     0x80 ||| ((n >>> 6) &&& 0x3F), 0x80 ||| (n &&& 0x3F)]

/-- Bytes of a Go string: `[]byte(s)` is the UTF-8 encoding. -/
def stringBytes (s : String) : List Nat := s.data.flatMap utf8Bytes

/-- Two lowercase hex digits of a byte (`hex.EncodeToString`). -/
def byteToHex (b : Nat) : List Char := [digitChar (b / 16), digitChar (b % 16)]

/-- Model of `hex.EncodeToString`: lowercase hex of a byte string. -/
def bytesToHexStr (bs : List Nat) : String := ⟨bs.flatMap byteToHex⟩

/-- Embedding of `rpc.GetEventSignatureHash`: `"0x"` plus the lowercase hex of the
Keccak-256 digest of the signature bytes. -/
def getEventSignatureHash (eventSignature : String) : String :=
  "0x" ++ bytesToHexStr (keccak256Bytes (stringBytes eventSignature))

/-! ## `cmd/polymer-cli/cmd/request.go`: transaction-hash resolution

The wire records of `pkg/rpc/client.go` and the pure core of
`processTransactionByHash`: everything after the two RPC fetches succeed,
up to the `client.RequestProof` call. An empty string for a flag value
means the flag was not supplied (the zero value of a cobra string flag).
-/

/-- Record `rpc.Log`: a log entry of a transaction receipt. -/
structure Log where
  logIndex : String
  transactionIndex : String
  transactionHash : String
  blockHash : String
  blockNumber : String
  address : String
  data : String
  topics : List String
deriving DecidableEq, Repr

/-- Record `rpc.Transaction`. The Go fields `From`/`To` are named `fromAddr` /
`toAddr` here because `from` is a Lean keyword. -/
structure Transaction where
  hash : String
  blockNumber : String
  blockHash : String
  fromAddr : String
  toAddr : String
  chainId : String
deriving DecidableEq, Repr

/-- Record `rpc.TransactionReceipt`. -/
structure TransactionReceipt where
  transactionHash : String
  transactionIndex : String
  blockNumber : String
  blockHash : String
  status : String
  logs : List Log
deriving DecidableEq, Repr

/-- The `(chainID, blockNumber, txIndex, logIndex)` tuple passed to
`client.RequestProof`. -/
structure Coordinates where
  chainID : Nat
  blockNumber : Nat
  txIndex : Nat
  logIndex : Nat
deriving DecidableEq, Repr

/-- The message text of a `HexError`, as `fmt.Errorf` renders it. -/
def HexError.message : HexError → String
  | .invalidHex s => "invalid hex value: " ++ s
  | .overflow s => "hex value too large for uint64: " ++ s

/-- The errors of the resolution core of `processTransactionByHash`, in source
order. `invalidLogIndex` carries the rejected flag value (the Go message
wraps the `strconv` error, which cites that value). -/
inductive ResolveError where
  | invalidBlockNumber (e : HexError)
  | invalidTxIndex (e : HexError)
  | invalidChainID (e : HexError)
  | missingChainID
  | noLogs
  | invalidLogIndex (s : String)
  | indexOutOfRange (requested count : Nat)
  | noMatchingLog (sig : String)
deriving DecidableEq, Repr

/-- The message text of a `ResolveError`, as the corresponding `fmt.Errorf`
renders it (for `invalidLogIndex` the wrapped `strconv` text is elided). -/
def ResolveError.message : ResolveError → String
  | .invalidBlockNumber e => "invalid block number in receipt: " ++ e.message
  | .invalidTxIndex e => "invalid transaction index in receipt: " ++ e.message
  | .invalidChainID e => "invalid chain ID in transaction: " ++ e.message
  | .missingChainID =>
    "chain ID not found in transaction, please provide it with --chain-id flag"
  | .noLogs => "no logs found in transaction receipt"
  | .invalidLogIndex s => "invalid log index: " ++ s
  | .indexOutOfRange i k =>
    "log index " ++ decRepr i ++ " is out of range, transaction has "
      ++ decRepr k ++ " logs"
  | .noMatchingLog sig => "no log found with event signature: " ++ sig

/-- ASCII whitespace as recognized by `strings.TrimSpace`
(`unicode.IsSpace` also covers non-ASCII spaces, which cannot occur in
event signatures). -/
def isGoSpace (c : Char) : Bool :=
  c = ' ' || c = '\t' || c = '\n' || c = '\r' || c = '\x0b' || c = '\x0c'

/-- Model of `strings.TrimSpace` on ASCII strings. -/
def goTrimSpace (s : String) : String :=
  ⟨((s.data.dropWhile isGoSpace).reverse.dropWhile isGoSpace).reverse⟩

/-- ASCII lowercasing of one character. -/
def asciiLower (c : Char) : Char :=
  if 'A' ≤ c && c ≤ 'Z' then Char.ofNat (c.toNat + 32) else c

/-- Model of `strings.EqualFold` restricted to ASCII: case-insensitive equality.
Both strings compared in the scan are `"0x"`-prefixed hex, where ASCII
folding coincides with the Go Unicode simple folding. -/
def equalFold (a b : String) : Bool :=
  a.data.map asciiLower == b.data.map asciiLower

/-- Does this log match the event-signature scan: non-empty topics and a
first topic equal (case-insensitively) to the signature hash? -/
def logTopicMatches (hash : String) (lg : Log) : Bool :=
  !lg.topics.isEmpty && equalFold (lg.topics.getD 0 "") hash

/-- The `for i, log := range receipt.Logs` scan: index of the first
matching log, starting the count at `i`. -/
def findMatchingLog (hash : String) : List Log → Nat → Option Nat
  | [], _ => none
  | lg :: rest, i =>
    if logTopicMatches hash lg then some i
    else findMatchingLog hash rest (i + 1)

/-- Cases 1–3 of the log-index determination in `processTransactionByHash`
(reached only when the receipt has at least one log). The Go code
recomputes `GetEventSignatureHash` on each loop iteration; it is a pure
function of the (trimmed) signature, so it is computed once here. -/
def resolveLogIndex (receipt : TransactionReceipt)
    (logIndexFlag eventSignatureFlag : String) : Except ResolveError Nat :=
  if logIndexFlag ≠ "" then
    match goParseUint logIndexFlag 32 with
    | none => .error (.invalidLogIndex logIndexFlag)
    | some i =>
      if receipt.logs.length ≤ i then
        .error (.indexOutOfRange i receipt.logs.length)
      else .ok i
  else if eventSignatureFlag ≠ "" then
    match findMatchingLog
        (getEventSignatureHash (goTrimSpace eventSignatureFlag))
        receipt.logs 0 with
    | some i => .ok i
    | none => .error (.noMatchingLog eventSignatureFlag)
  else .ok 0

/-- The pure resolution core of `cmd.processTransactionByHash`: everything
between the two successful RPC fetches and the `client.RequestProof` call,
in source order — block number, transaction index, chain ID (present and
valid, else `missingChainID`), the zero-logs check, then the log-index
determination. -/
def resolveTxByHash (tx : Transaction) (receipt : TransactionReceipt)
    (logIndexFlag eventSignatureFlag : String) :
    Except ResolveError Coordinates :=
  match hexToUint64 receipt.blockNumber with
  | .error e => .error (.invalidBlockNumber e)
  | .ok blockNum =>
    match hexToUint64 receipt.transactionIndex with
    | .error e => .error (.invalidTxIndex e)
    | .ok txIdx =>
      if tx.chainId = "" then .error .missingChainID
      else
        match hexToUint64 tx.chainId with
        | .error e => .error (.invalidChainID e)
        | .ok chainID =>
          if receipt.logs.length = 0 then .error .noLogs
          else
            match resolveLogIndex receipt logIndexFlag eventSignatureFlag with
            | .error e => .error e
            | .ok logIdx => .ok ⟨chainID, blockNum, txIdx, logIdx⟩

/-- When the numeric fields of the receipt and the chain ID parse and at least
one log is present, resolution reduces to the log-index determination. -/
theorem resolveTxByHash_eq_logIndexPath (tx : Transaction)
    (receipt : TransactionReceipt) (logIndexFlag eventSignatureFlag : String)
    (b t c : Nat)
    (hb : hexToUint64 receipt.blockNumber = .ok b)
    (ht : hexToUint64 receipt.transactionIndex = .ok t)
    (hcne : tx.chainId ≠ "") (hc : hexToUint64 tx.chainId = .ok c)
    (hk : receipt.logs.length ≠ 0) :
    resolveTxByHash tx receipt logIndexFlag eventSignatureFlag =
      match resolveLogIndex receipt logIndexFlag eventSignatureFlag with
      | .error e => .error e
      | .ok logIdx => .ok ⟨c, b, t, logIdx⟩ := by
  simp [resolveTxByHash, hb, ht, hc, hcne, hk]

/-! ### C1: zero-logs receipts -/

/-- C1 (amended): With the block number and transaction index of the receipt valid hex and the chain ID of the transaction present and valid, a receipt with
zero logs always fails with the no-logs error, regardless of the log-index
and event-signature flags. (When the chain ID is absent, the missing-chain-ID
error takes precedence — see the counterexample.) -/
theorem C1_noLogs_when_chainID_present (tx : Transaction)
    (receipt : TransactionReceipt) (logIndexFlag eventSignatureFlag : String)
    (b t c : Nat)
    (hb : hexToUint64 receipt.blockNumber = .ok b)
    (ht : hexToUint64 receipt.transactionIndex = .ok t)
    (hcne : tx.chainId ≠ "") (hc : hexToUint64 tx.chainId = .ok c)
    (hlogs : receipt.logs = []) :
    resolveTxByHash tx receipt logIndexFlag eventSignatureFlag =
      .error .noLogs := by
  simp [resolveTxByHash, hb, ht, hc, hcne, hlogs]

/-- A transaction whose `chainId` field is present (`"0x1"`). -/
def txWithChain : Transaction := ⟨"0xh", "0x10", "0xbh", "0xf", "0xt", "0x1"⟩

/-- The same transaction with the `chainId` field absent (empty string). -/
def txNoChain : Transaction := ⟨"0xh", "0x10", "0xbh", "0xf", "0xt", ""⟩

/-- A receipt with zero logs and well-formed numeric fields. -/
def receiptNoLogs : TransactionReceipt := ⟨"0xh", "0x0", "0x10", "0xbh", "0x1", []⟩

/-- A log fixture with the given topics. -/
def mkTestLog (ts : List String) : Log :=
  ⟨"0x0", "0x0", "0xh", "0xbh", "0x10", "0xa", "0x", ts⟩

/-- Counterexample to C1 as stated: on a zero-logs receipt where the transaction lacks the chain ID field, resolution fails with the
missing-chain-ID error, not the no-logs error — the chain-ID check runs
before the zero-logs check. -/
theorem C1_counterexample :
    resolveTxByHash txNoChain receiptNoLogs "" "" = .error .missingChainID ∧
    resolveTxByHash txNoChain receiptNoLogs "" "" ≠ .error .noLogs := by
  exact ⟨rfl, by decide⟩

/-- Witness for the amended C1: zero logs with chain ID present fails with
the no-logs error even when both a log index and an event signature are
supplied. -/
theorem C1_witness :
    resolveTxByHash txWithChain receiptNoLogs "7"
      "Transfer(address,address,uint256)" = .error .noLogs := by
  exact C1_noLogs_when_chainID_present txWithChain receiptNoLogs "7"
    "Transfer(address,address,uint256)" 16 0 1 rfl rfl (by decide) rfl rfl

/-! ### C6: explicit log index -/

theorem decRepr_ne_empty (n : Nat) : decRepr n ≠ "" := by
  intro h
  exact toDigitsBase_ne_nil 10 n (congrArg String.data h)

/-- Behavior of the log-index determination on an explicit decimal index:
the 32-bit parse bound comes first, then the range check against the log
count. -/
theorem resolveLogIndex_decRepr (receipt : TransactionReceipt) (esf : String)
    (i : Nat) :
    resolveLogIndex receipt (decRepr i) esf =
      if i < 2 ^ 32 then
        (if receipt.logs.length ≤ i then
          .error (.indexOutOfRange i receipt.logs.length)
        else .ok i)
      else .error (.invalidLogIndex (decRepr i)) := by
  have hne : decRepr i ≠ "" := decRepr_ne_empty i
  have hparse : parseDecDigits (decRepr i).data = some i :=
    parseDecDigits_toDigitsBase i
  unfold resolveLogIndex goParseUint
  rw [if_pos hne, hparse]
  by_cases hi : i < 4294967296
  · simp [hi]
  · simp [hi]

/-- C6 (amended): For a receipt with at least one log, an explicit
decimal log index `i` (with valid receipt fields and chain ID): when
`i < 2^32` resolution succeeds selecting index `i` exactly when
`i < logs.length`, and fails with the index-out-of-range error citing both
`i` and the log count when `logs.length ≤ i`; when `2^32 ≤ i` the 32-bit
parse fails first, giving the invalid-log-index error instead. -/
theorem C6_explicit_log_index (tx : Transaction)
    (receipt : TransactionReceipt) (esf : String) (i b t c : Nat)
    (hb : hexToUint64 receipt.blockNumber = .ok b)
    (ht : hexToUint64 receipt.transactionIndex = .ok t)
    (hcne : tx.chainId ≠ "") (hc : hexToUint64 tx.chainId = .ok c)
    (hk : 0 < receipt.logs.length) :
    (i < 2 ^ 32 → i < receipt.logs.length →
      resolveTxByHash tx receipt (decRepr i) esf = .ok ⟨c, b, t, i⟩) ∧
    (i < 2 ^ 32 → receipt.logs.length ≤ i →
      resolveTxByHash tx receipt (decRepr i) esf =
        .error (.indexOutOfRange i receipt.logs.length) ∧
      (ResolveError.indexOutOfRange i receipt.logs.length).message =
        "log index " ++ decRepr i ++ " is out of range, transaction has "
          ++ decRepr receipt.logs.length ++ " logs") ∧
    (2 ^ 32 ≤ i →
      resolveTxByHash tx receipt (decRepr i) esf =
        .error (.invalidLogIndex (decRepr i))) := by
  have hpath := resolveTxByHash_eq_logIndexPath tx receipt (decRepr i) esf
    b t c hb ht hcne hc (by omega)
  have hres := resolveLogIndex_decRepr receipt esf i
  refine ⟨?_, ?_, ?_⟩
  · intro hi hlt
    rw [hpath, hres, if_pos hi, if_neg (by omega)]
  · intro hi hge
    refine ⟨?_, rfl⟩
    rw [hpath, hres, if_pos hi, if_pos hge]
  · intro hi
    rw [hpath, hres, if_neg (by omega)]

/-- A receipt with exactly two logs. -/
def receiptTwoLogs : TransactionReceipt :=
  ⟨"0xh", "0x0", "0x10", "0xbh", "0x1",
   [mkTestLog ["0xaa"], mkTestLog ["0xbb"]]⟩

/-- Counterexample to C6 as stated: the explicit index `4294967296`
(`2^32`) on a 2-log receipt fails with the invalid-log-index parse error,
not with the index-out-of-range error citing the index and the log count
that the claim predicts for every `i ≥ k`. -/
theorem C6_counterexample :
    resolveTxByHash txWithChain receiptTwoLogs "4294967296" "" =
      .error (.invalidLogIndex "4294967296") ∧
    resolveTxByHash txWithChain receiptTwoLogs "4294967296" "" ≠
      .error (.indexOutOfRange 4294967296 2) := by
  exact ⟨rfl, by decide⟩

/-- Witness for the amended C6 on the 2-log receipt: index 1 succeeds,
index 5 is out of range citing 5 and 2, index `2^32` is a parse error. -/
theorem C6_witness :
    resolveTxByHash txWithChain receiptTwoLogs (decRepr 1) "" =
      .ok ⟨1, 16, 0, 1⟩ ∧
    (resolveTxByHash txWithChain receiptTwoLogs (decRepr 5) "" =
      .error (.indexOutOfRange 5 2) ∧
     (ResolveError.indexOutOfRange 5 2).message =
      "log index 5 is out of range, transaction has 2 logs") ∧
    resolveTxByHash txWithChain receiptTwoLogs (decRepr 4294967296) "" =
      .error (.invalidLogIndex (decRepr 4294967296)) := by
  refine ⟨?_, ⟨?_, ?_⟩, ?_⟩
  · exact (C6_explicit_log_index txWithChain receiptTwoLogs "" 1 16 0 1
      rfl rfl (by decide) rfl (by decide)).1 (by norm_num) (by decide)
  · exact ((C6_explicit_log_index txWithChain receiptTwoLogs "" 5 16 0 1
      rfl rfl (by decide) rfl (by decide)).2.1 (by norm_num) (by decide)).1
  · have h : (ResolveError.indexOutOfRange 5 2).message =
        "log index " ++ decRepr 5 ++ " is out of range, transaction has "
          ++ decRepr 2 ++ " logs" :=
      ((C6_explicit_log_index txWithChain receiptTwoLogs "" 5 16 0 1
        rfl rfl (by decide) rfl (by decide)).2.1 (by norm_num) (by decide)).2
    rw [h]; decide
  · exact (C6_explicit_log_index txWithChain receiptTwoLogs "" 4294967296
      16 0 1 rfl rfl (by decide) rfl (by decide)).2.2 (by norm_num)

/-! ### C7: event-signature scan -/

/-- The scan returns the index of the first matching log. -/
theorem findMatchingLog_append (hash : String) :
    ∀ (pre : List Log) (lg : Log) (post : List Log) (i : Nat),
      (∀ l ∈ pre, logTopicMatches hash l = false) →
      logTopicMatches hash lg = true →
      findMatchingLog hash (pre ++ lg :: post) i = some (i + pre.length)
  | [], lg, post, i, _, hmatch => by
    simp [findMatchingLog, hmatch]
  | p :: ps, lg, post, i, hpre, hmatch => by
    have hp : logTopicMatches hash p = false := hpre p (List.mem_cons_self p ps)
    show (if logTopicMatches hash p then some i
      else findMatchingLog hash (ps ++ lg :: post) (i + 1)) = some (i + (p :: ps).length)
    rw [hp]
    simp only [Bool.false_eq_true, if_false]
    rw [findMatchingLog_append hash ps lg post (i + 1)
      (fun l hl => hpre l (List.mem_cons_of_mem p hl)) hmatch]
    congr 1
    simp [List.length_cons]
    omega

/-- The scan finds nothing when no log matches. -/
theorem findMatchingLog_none (hash : String) :
    ∀ (ls : List Log) (i : Nat),
      (∀ l ∈ ls, logTopicMatches hash l = false) →
      findMatchingLog hash ls i = none
  | [], _, _ => rfl
  | p :: ps, i, hall => by
    have hp : logTopicMatches hash p = false := hall p (List.mem_cons_self p ps)
    show (if logTopicMatches hash p then some i
      else findMatchingLog hash ps (i + 1)) = none
    rw [hp]
    simp only [Bool.false_eq_true, if_false]
    exact findMatchingLog_none hash ps (i + 1)
      (fun l hl => hall l (List.mem_cons_of_mem p hl))

/-- C7: With no explicit log index and a non-empty event signature
(valid receipt fields, chain ID present, at least one log): resolution
hashes the (trimmed) signature with Keccak-256 and selects the first log,
in receipt order, whose first topic equals the hash case-insensitively —
if the logs split as `pre ++ lg :: post` with no match in `pre` and `lg`
matching, the chosen index is `pre.length`; if no log matches, it fails
with the no-matching-log error. -/
theorem C7_event_signature_scan (tx : Transaction)
    (receipt : TransactionReceipt) (sig : String) (b t c : Nat)
    (hb : hexToUint64 receipt.blockNumber = .ok b)
    (ht : hexToUint64 receipt.transactionIndex = .ok t)
    (hcne : tx.chainId ≠ "") (hc : hexToUint64 tx.chainId = .ok c)
    (hk : receipt.logs.length ≠ 0) (hsig : sig ≠ "") :
    (∀ (pre : List Log) (lg : Log) (post : List Log),
      receipt.logs = pre ++ lg :: post →
      (∀ l ∈ pre,
        logTopicMatches (getEventSignatureHash (goTrimSpace sig)) l = false) →
      logTopicMatches (getEventSignatureHash (goTrimSpace sig)) lg = true →
      resolveTxByHash tx receipt "" sig = .ok ⟨c, b, t, pre.length⟩) ∧
    ((∀ l ∈ receipt.logs,
        logTopicMatches (getEventSignatureHash (goTrimSpace sig)) l = false) →
      resolveTxByHash tx receipt "" sig = .error (.noMatchingLog sig)) := by
  have hpath := resolveTxByHash_eq_logIndexPath tx receipt "" sig
    b t c hb ht hcne hc hk
  have hflag : ¬("" : String) ≠ "" := by simp
  constructor
  · intro pre lg post hsplit hpre hmatch
    rw [hpath]
    unfold resolveLogIndex
    rw [if_neg hflag, if_pos hsig, hsplit,
      findMatchingLog_append (getEventSignatureHash (goTrimSpace sig))
        pre lg post 0 hpre hmatch]
    simp
  · intro hall
    rw [hpath]
    unfold resolveLogIndex
    rw [if_neg hflag, if_pos hsig,
      findMatchingLog_none (getEventSignatureHash (goTrimSpace sig))
        receipt.logs 0 hall]

/-- The ERC-20 `Transfer` event signature. -/
def sigTransfer : String := "Transfer(address,address,uint256)"

/-- Keccak-256 topic of `Approval(address,address,uint256)` — does not
match `sigTransfer`. -/
def logOther : Log :=
  mkTestLog ["0x8c5be1e5ebec7d5bd14f71427d1e84f3dd0314c0f7b2291e5b200ac8c7c3b925"]

/-- Keccak-256 topic of `sigTransfer`, in uppercase hex (matches only
case-insensitively). -/
def logMatchUpper : Log :=
  mkTestLog ["0xDDF252AD1BE2C89B69C2B068FC378DAA952BA7F163C4A11628F55A4DF523B3EF"]

/-- Keccak-256 topic of `sigTransfer`, lowercase (a second match, placed
after the first to check that the first one wins). -/
def logMatchLower : Log :=
  mkTestLog ["0xddf252ad1be2c89b69c2b068fc378daa952ba7f163c4a11628f55a4df523b3ef"]

/-- Three logs: the `Transfer` topic hash appears at indices 1 and 2. -/
def receiptThreeLogs : TransactionReceipt :=
  ⟨"0xh", "0x0", "0x10", "0xbh", "0x1", [logOther, logMatchUpper, logMatchLower]⟩

set_option maxRecDepth 1000000 in
/-- Witness for C7: the `Transfer` signature against a 3-log receipt where
the second and third logs carry the transfer topic (the second in uppercase)
selects index 1 — not 0 or 2. -/
theorem C7_witness :
    resolveTxByHash txWithChain receiptThreeLogs "" sigTransfer =
      .ok ⟨1, 16, 0, 1⟩ := by
  exact (C7_event_signature_scan txWithChain receiptThreeLogs sigTransfer
      16 0 1 rfl rfl (by decide) rfl (by decide) (by decide)).1
    [logOther] logMatchUpper [logMatchLower] rfl
    (by decide) (by decide)

/-! ## `pkg/api/client.go`: job identifiers

```go
// RequestProof, after decoding the JSON-RPC response:
var jobID string
switch v := response.Result.(type) {
case string:
    jobID = v
case float64:
    jobID = fmt.Sprintf("%.0f", v)
default:
    return "", fmt.Errorf("unexpected result type: %T", response.Result)
}

// GetProofStatus:
jobIDNum, err := strconv.ParseFloat(jobID, 64)
if err != nil {
    return nil, fmt.Errorf("invalid job ID: %w", err)
}
```

`strconv.ParseFloat` and `fmt.Sprintf` are Go standard library; they are
modelled at their interfaces below, following their documented and source
behavior: the accepted syntax of `ParseFloat` (sign, `inf`/`infinity`/`nan`
names, decimal or hexadecimal mantissa with optional exponent, underscores
only between digits), its `ErrRange` failure — reported exactly when the
denoted value rounds to `±Inf`, that is when the exact magnitude reaches
`MaxFloat64` plus half an ulp (`2^1024 - 2^970`); the small-magnitude paths
of its conversions (`decimal.floatBits`, `atofHex`) return 0 or a denormal
with a nil error, so underflow never fails — and the shape of `%.0f` output
for finite floats (an optional minus sign followed by one or more decimal
digits of a magnitude bounded by the integer value of `MaxFloat64`).
-/

/-- A finite IEEE-754 float64 as decoded from JSON (`encoding/json` stores
numbers as `float64` and rejects NaN/infinities on input), represented by
the two components of its `%.0f` rendering: the sign and the magnitude
rounded to an integer (ties to even). `%.0f` of any finite float64 prints
an optional minus sign followed by one or more decimal digits, which is all
`RequestProof` and `GetProofStatus` observe of the number. -/
structure GoFloat64 where
  neg : Bool
  intMag : Nat
  /-- A finite float64 magnitude is at most `MaxFloat64 = (2^53 - 1) * 2^971`,
  itself an integer, so the rounded magnitude printed by `%.0f` is bounded by
  its exact value `2^1024 - 2^971`. -/
  intMag_le : intMag ≤ 2 ^ 1024 - 2 ^ 971

/-- Model of `fmt.Sprintf("%.0f", f)` for a finite float64. -/
def formatF0 (f : GoFloat64) : String :=
  (if f.neg then "-" else "") ++ decRepr f.intMag

/-- A decoded JSON-RPC `result` value: the shapes `encoding/json` stores in
a Go `interface{}`. -/
inductive JSONValue where
  | null
  | bool (b : Bool)
  | num (f : GoFloat64)
  | str (s : String)
  | arr
  | obj

/-- The job-identifier normalization at the end of `api.RequestProof` (the
`switch v := response.Result.(type)`): a string result is used as-is, a
float64 result is rendered with `%.0f`, anything else is the
unexpected-result-type error. -/
def requestProofJobID : JSONValue → Except String String
  | .str v => .ok v
  | .num v => .ok (formatF0 v)
  | _ => .error "unexpected result type"

/-! ### The accepted syntax of `strconv.ParseFloat` -/

/-- Strip one leading `+`/`-`. -/
def dropSign : List Char → List Char
  | [] => []
  | c :: rest => if c = '+' || c = '-' then rest else c :: rest

/-- Case-insensitive (ASCII) equality of character lists. -/
def ciEq (a b : List Char) : Bool :=
  a.map asciiLower == b.map asciiLower

/-- The special names `ParseFloat` accepts: `inf`/`infinity` with an
optional sign, `nan` without one (the whole string, case-insensitive). -/
def specialOk (s : List Char) : Bool :=
  match s with
  | [] => false
  | c :: rest =>
    if c = '+' || c = '-' then
      ciEq rest ['i', 'n', 'f'] || ciEq rest ['i', 'n', 'f', 'i', 'n', 'i', 't', 'y']
    else
      ciEq s ['i', 'n', 'f'] || ciEq s ['i', 'n', 'f', 'i', 'n', 'i', 't', 'y']
        || ciEq s ['n', 'a', 'n']

/-- Is `c` a lowercase/uppercase hex letter `a`–`f`? -/
def isHexLetter (c : Char) : Bool :=
  'a' ≤ asciiLower c && asciiLower c ≤ 'f'

/-- A run of digits in which underscores are skipped (their placement is
validated separately, as in the Go split between `readFloat` and `underscoreOK`):
returns the digit count, the accumulated value, and the unconsumed rest. -/
def digitsRunV (isDig : Char → Bool) (dv : Char → Nat) (base : Nat) :
    List Char → Nat → Nat → Nat × Nat × List Char
  | [], n, v => (n, v, [])
  | c :: cs, n, v =>
    if isDig c then digitsRunV isDig dv base cs (n + 1) (base * v + dv c)
    else if c = '_' then digitsRunV isDig dv base cs n v
    else (n, v, c :: cs)

/-- Exponent part after `e`/`E`/`p`/`P`: optional sign then at least one
decimal digit, consuming the whole rest; returns the sign and the value. -/
def expParse (s : List Char) : Option (Bool × Nat) :=
  match s with
  | [] => none
  | c :: rest =>
    let p := if c = '+' then (false, rest)
             else if c = '-' then (true, rest)
             else (false, c :: rest)
    let r := digitsRunV isDecDigit decVal 10 p.2 0 0
    if r.1 = 0 then none
    else if r.2.2.isEmpty then some (p.1, r.2.1) else none

/-- The rounding boundary to infinity of float64: values whose exact
magnitude reaches `MaxFloat64` plus half an ulp, `2^1024 - 2^970`, round to
`±Inf` under round-to-nearest-even (the mantissa of `MaxFloat64` is odd, so
the midpoint rounds away), and it is exactly then that `strconv.ParseFloat`
reports `ErrRange`. Underflow is not a range error: the small-magnitude
paths of the Go conversions (`decimal.floatBits` and `atofHex`) return 0 or
a denormal without setting the overflow flag. -/
def infBoundary : Nat := 2 ^ 1024 - 2 ^ 970

/-- Does a parsed decimal number `m * 10^e` (with `m` read from `nd` digit
characters, so `m < 10^nd`) round to `±Inf`? The two clamps avoid computing
astronomic powers: `m ≥ 1` and `e ≥ 310` forces at least `10^310`, above the
boundary; `m < 10^nd` and `nd + e ≤ 308` stays below `10^308`, below the
boundary; in the remaining window the comparison is exact. -/
def decOverflow (m nd : Nat) (e : Int) : Bool :=
  if m = 0 then false
  else if e ≥ 310 then true
  else if (nd : Int) + e ≤ 308 then false
  else if e ≥ 0 then decide (infBoundary ≤ m * 10 ^ e.toNat)
  else decide (infBoundary * 10 ^ (-e).toNat ≤ m)

/-- Does a parsed hexadecimal number `m * 2^e` (with `m` read from `nd` hex
digit characters, so `m < 2^(4*nd)`) round to `±Inf`? Same structure as
`decOverflow` with binary clamps. -/
def hexOverflow (m nd : Nat) (e : Int) : Bool :=
  if m = 0 then false
  else if e ≥ 1025 then true
  else if 4 * (nd : Int) + e ≤ 1023 then false
  else if e ≥ 0 then decide (infBoundary ≤ m * 2 ^ e.toNat)
  else decide (infBoundary * 2 ^ (-e).toNat ≤ m)

/-- Decimal mantissa with optional fraction and optional `e` exponent, at
least one digit overall: `none` on a syntax error, otherwise whether the
denoted value `mant * 10^(exp - fracCount)` rounds to `±Inf` (the
`ErrRange` case of `ParseFloat`). -/
def decNumberCheck (s : List Char) : Option Bool :=
  let r1 := digitsRunV isDecDigit decVal 10 s 0 0
  let r2 := match r1.2.2 with
    | '.' :: r => digitsRunV isDecDigit decVal 10 r r1.1 r1.2.1
    | _ => r1
  if r2.1 = 0 then none
  else
    match r2.2.2 with
    | [] => some (decOverflow r2.2.1 r2.1 (0 - ((r2.1 - r1.1 : Nat) : Int)))
    | e :: r =>
      if e = 'e' || e = 'E' then
        match expParse r with
        | none => none
        | some ex =>
          some (decOverflow r2.2.1 r2.1
            ((if ex.1 then -(ex.2 : Int) else (ex.2 : Int)) - ((r2.1 - r1.1 : Nat) : Int)))
      else none

/-- Hexadecimal mantissa with optional fraction and a mandatory binary `p`
exponent: `none` on a syntax error, otherwise whether the denoted value
`mant * 2^(exp - 4*fracCount)` rounds to `±Inf`. -/
def hexNumberCheck (s : List Char) : Option Bool :=
  let r1 := digitsRunV isHexDigit hexVal 16 s 0 0
  let r2 := match r1.2.2 with
    | '.' :: r => digitsRunV isHexDigit hexVal 16 r r1.1 r1.2.1
    | _ => r1
  if r2.1 = 0 then none
  else
    match r2.2.2 with
    | [] => none
    | p :: r =>
      if p = 'p' || p = 'P' then
        match expParse r with
        | none => none
        | some ex =>
          some (hexOverflow r2.2.1 r2.1
            ((if ex.1 then -(ex.2 : Int) else (ex.2 : Int))
              - 4 * ((r2.1 - r1.1 : Nat) : Int)))
      else none

/-- Does the (sign-stripped) string start with `0x`/`0X`? -/
def startsWith0x : List Char → Bool
  | c1 :: c2 :: _ => c1 = '0' && (c2 = 'x' || c2 = 'X')
  | _ => false

/-- The number path of `ParseFloat` (the Go `readFloat` plus conversion),
underscore placement aside: `none` on a syntax error, otherwise whether the
value overflows to `±Inf` (the `ErrRange` case). -/
def readFloatCheck (s : List Char) : Option Bool :=
  let s1 := dropSign s
  if startsWith0x s1 then hexNumberCheck (s1.drop 2) else decNumberCheck s1

/-- Does the (sign-stripped) string start with a `0b`/`0o`/`0x` base
prefix? -/
def hasBaseTag : List Char → Bool
  | c1 :: c2 :: _ =>
    c1 = '0' && (asciiLower c2 = 'b' || asciiLower c2 = 'o' || asciiLower c2 = 'x')
  | _ => false

/-- The scan of the Go `underscoreOK` check: `saw` is `'0'` after a digit (or base
prefix), `'_'` after an underscore, `'^'` at the start, `'!'` otherwise; an
underscore must follow and be followed by a digit. -/
def underscoreOKLoop (hex : Bool) : List Char → Char → Bool
  | [], saw => saw != '_'
  | c :: cs, saw =>
    if isDecDigit c || (hex && isHexLetter c) then underscoreOKLoop hex cs '0'
    else if c = '_' then
      if saw != '0' then false else underscoreOKLoop hex cs '_'
    else if saw = '_' then false
    else underscoreOKLoop hex cs '!'

/-- the Go `underscoreOK` check: underscores only between digits (or between a base
prefix and a digit). -/
def goUnderscoreOK (s : List Char) : Bool :=
  let s1 := dropSign s
  if hasBaseTag s1 then
    underscoreOKLoop (startsWith0x s1) (s1.drop 2) '0'
  else underscoreOKLoop false s1 '^'

/-- Does `strconv.ParseFloat(s, 64)` return a nil error? Either a special
name, or the number syntax with valid underscore placement and a value that
does not round to `±Inf`. The failure modes are the syntax error
(malformed input or misplaced underscores) and `ErrRange`, which
`ParseFloat` reports exactly for values rounding to `±Inf` (magnitude at
least `infBoundary`); underflowing values parse to 0 or a denormal with a
nil error. -/
def goParseFloatAccepts (s : String) : Bool :=
  specialOk s.data ||
    (match readFloatCheck s.data with
     | none => false
     | some overflowed => goUnderscoreOK s.data && !overflowed)

/-- Errors of `GetProofStatus`. -/
inductive StatusError where
  | invalidJobID (jobID : String)
  | submission (e : String)
deriving DecidableEq, Repr

/-- Embedding of `api.GetProofStatus`: parse the job identifier back to numeric form
with `strconv.ParseFloat(jobID, 64)` — failure is the invalid-job-ID
error — then make the wire call, whose outcome (transport, protocol and
decode errors included) is the `remote` argument. -/
def getProofStatus (remote : Except String ProofStatusResponse)
    (jobID : String) : Except StatusError ProofStatusResponse :=
  if goParseFloatAccepts jobID then remote.mapError StatusError.submission
  else .error (.invalidJobID jobID)

/-! ### Digit strings are accepted by the `ParseFloat` syntax -/

/-- Every character is the rendering of a decimal digit. -/
def allDigitChars (ds : List Char) : Prop :=
  ∀ c ∈ ds, ∃ d, d < 10 ∧ c = digitChar d

theorem digitChar_not_sign : ∀ d, d < 10 →
    ((digitChar d = '+' || digitChar d = '-') = false) := by decide

theorem digitChar_lower_ne_i : ∀ d, d < 10 →
    asciiLower (digitChar d) ≠ asciiLower 'i' := by decide

theorem digitChar_lower_ne_n : ∀ d, d < 10 →
    asciiLower (digitChar d) ≠ asciiLower 'n' := by decide

theorem digitChar_not_x : ∀ d, d < 10 →
    ((digitChar d = 'x' || digitChar d = 'X') = false) := by decide

theorem digitChar_not_base_letter : ∀ d, d < 10 →
    ((asciiLower (digitChar d) = 'b' || asciiLower (digitChar d) = 'o'
      || asciiLower (digitChar d) = 'x') = false) := by decide

theorem allDigitChars_toDigitsBase (n : Nat) : allDigitChars (toDigitsBase 10 n) := by
  intro c hc
  unfold toDigitsBase at hc
  by_cases h0 : n = 0
  · rw [if_pos h0] at hc
    simp at hc
    exact ⟨0, by norm_num, by rw [hc]; rfl⟩
  · rw [if_neg h0] at hc
    rcases mem_toDigitsAux 10 (by norm_num) n n [] c hc with h | ⟨d, hd, rfl⟩
    · simp at h
    · exact ⟨d, hd, rfl⟩

theorem dropSign_of_not_sign (c : Char) (cs : List Char)
    (h : (c = '+' || c = '-') = false) : dropSign (c :: cs) = c :: cs := by
  simp only [dropSign, h, Bool.false_eq_true, if_false]

theorem dropSign_minus (cs : List Char) : dropSign ('-' :: cs) = cs := by
  simp [dropSign]

theorem ciEq_false_of_head (c t : Char) (cs ts : List Char)
    (hne : asciiLower c ≠ asciiLower t) : ciEq (c :: cs) (t :: ts) = false := by
  simp only [ciEq, List.map_cons, beq_eq_false_iff_ne, ne_eq, List.cons.injEq,
    not_and]
  intro heq
  exact absurd heq hne

theorem digitsRunV_all_digits :
    ∀ (ds : List Char) (n v : Nat), allDigitChars ds →
      digitsRunV isDecDigit decVal 10 ds n v =
        (n + ds.length, ds.foldl (fun a c => 10 * a + decVal c) v, [])
  | [], n, v, _ => by simp [digitsRunV]
  | c :: cs, n, v, h => by
    obtain ⟨d, hd, rfl⟩ := h c (List.mem_cons_self c cs)
    show (if isDecDigit (digitChar d) then
        digitsRunV isDecDigit decVal 10 cs (n + 1) (10 * v + decVal (digitChar d))
      else if digitChar d = '_' then digitsRunV isDecDigit decVal 10 cs n v
      else (n, v, digitChar d :: cs))
      = (n + (digitChar d :: cs).length,
         (digitChar d :: cs).foldl (fun a c => 10 * a + decVal c) v, [])
    rw [isDecDigit_digitChar d hd, if_pos rfl,
      digitsRunV_all_digits cs (n + 1) _ (fun x hx => h x (List.mem_cons_of_mem _ hx))]
    simp
    omega

/-- The digit accumulation of the float parser recovers `M` from the
decimal rendering of `M` (it runs the same fold as `parseDecCore`). -/
theorem foldl_toDigitsBase (M : Nat) :
    (toDigitsBase 10 M).foldl (fun a c => 10 * a + decVal c) 0 = M := by
  have h1 := parseDecDigits_toDigitsBase M
  rw [parseDecDigits_of_ne_nil _ (toDigitsBase_ne_nil 10 M)] at h1
  unfold parseDecCore at h1
  rw [parseCore_eq_foldl isDecDigit decVal 10 _ 0 (fun c hc => by
    obtain ⟨d, hd, rfl⟩ := allDigitChars_toDigitsBase M c hc
    exact isDecDigit_digitChar d hd)] at h1
  exact Option.some.inj h1

theorem decNumberCheck_digits (ds : List Char) (h : allDigitChars ds)
    (hne : ds ≠ []) :
    decNumberCheck ds =
      some (decOverflow (ds.foldl (fun a c => 10 * a + decVal c) 0)
        ds.length 0) := by
  have hlen : ds.length ≠ 0 := fun hl => hne (List.length_eq_zero.mp hl)
  simp only [decNumberCheck, digitsRunV_all_digits ds 0 0 h]
  simp [hlen]

theorem decOverflow_lt_boundary (m nd : Nat) (hm : m < infBoundary) :
    decOverflow m nd 0 = false := by
  unfold decOverflow
  by_cases h0 : m = 0
  · rw [if_pos h0]
  · rw [if_neg h0, if_neg (by decide : ¬((0 : Int) ≥ 310))]
    by_cases hnd : (nd : Int) + 0 ≤ 308
    · rw [if_pos hnd]
    · rw [if_neg hnd, if_pos (by decide : (0 : Int) ≥ 0)]
      simp only [Int.toNat_zero, pow_zero, mul_one]
      exact decide_eq_false (not_le.mpr hm)

/-- The bound carried by `GoFloat64` keeps the magnitude strictly below the
round-to-infinity boundary (`MaxFloat64` is half an ulp below it). -/
theorem intMag_lt_infBoundary (n : Nat) (hb : n ≤ 2 ^ 1024 - 2 ^ 971) :
    n < infBoundary := by
  unfold infBoundary
  have h1 : (2 : Nat) ^ 971 = 2 ^ 970 * 2 := pow_succ 2 970
  have h2 : (2 : Nat) ^ 971 ≤ 2 ^ 1024 :=
    Nat.pow_le_pow_right (by norm_num) (by norm_num)
  have h3 : (0 : Nat) < 2 ^ 970 := pow_pos (by norm_num) 970
  generalize hA : (2 : Nat) ^ 970 = A at h1 h3 ⊢
  generalize hB : (2 : Nat) ^ 971 = B at h1 h2 hb
  generalize hC : (2 : Nat) ^ 1024 = C at h2 hb ⊢
  omega

theorem startsWith0x_all_digits (ds : List Char) (h : allDigitChars ds) :
    startsWith0x ds = false := by
  match ds with
  | [] => rfl
  | [c] => rfl
  | c1 :: c2 :: rest =>
    obtain ⟨d, hd, rfl⟩ := h c2 (List.mem_cons_of_mem _ (List.mem_cons_self _ _))
    show (c1 = '0' && (digitChar d = 'x' || digitChar d = 'X')) = false
    rw [digitChar_not_x d hd, Bool.and_false]

theorem hasBaseTag_all_digits (ds : List Char) (h : allDigitChars ds) :
    hasBaseTag ds = false := by
  match ds with
  | [] => rfl
  | [c] => rfl
  | c1 :: c2 :: rest =>
    obtain ⟨d, hd, rfl⟩ := h c2 (List.mem_cons_of_mem _ (List.mem_cons_self _ _))
    show (c1 = '0' && (asciiLower (digitChar d) = 'b'
      || asciiLower (digitChar d) = 'o' || asciiLower (digitChar d) = 'x')) = false
    rw [digitChar_not_base_letter d hd, Bool.and_false]

theorem underscoreOKLoop_all_digits :
    ∀ (ds : List Char) (saw : Char), allDigitChars ds → (saw != '_') = true →
      underscoreOKLoop false ds saw = true
  | [], saw, _, hsaw => hsaw
  | c :: cs, saw, h, _ => by
    obtain ⟨d, hd, rfl⟩ := h c (List.mem_cons_self c cs)
    show (if isDecDigit (digitChar d) || (false && isHexLetter (digitChar d)) then
        underscoreOKLoop false cs '0'
      else _) = true
    rw [isDecDigit_digitChar d hd]
    simp only [Bool.true_or, if_pos rfl]
    exact underscoreOKLoop_all_digits cs '0'
      (fun x hx => h x (List.mem_cons_of_mem _ hx)) (by decide)

theorem specialOk_all_digits (ds : List Char) (h : allDigitChars ds)
    (hne : ds ≠ []) : specialOk ds = false := by
  match ds with
  | [] => exact absurd rfl hne
  | c :: cs =>
    obtain ⟨d, hd, rfl⟩ := h c (List.mem_cons_self c cs)
    show (if digitChar d = '+' || digitChar d = '-' then _ else _) = false
    rw [digitChar_not_sign d hd]
    simp only [Bool.false_eq_true, if_false]
    rw [ciEq_false_of_head _ _ _ _ (digitChar_lower_ne_i d hd),
      ciEq_false_of_head _ _ _ _ (digitChar_lower_ne_i d hd),
      ciEq_false_of_head _ _ _ _ (digitChar_lower_ne_n d hd)]
    rfl

theorem specialOk_minus_digits (ds : List Char) (h : allDigitChars ds) :
    specialOk ('-' :: ds) = false := by
  have hred : specialOk ('-' :: ds) =
      (ciEq ds ['i', 'n', 'f'] || ciEq ds ['i', 'n', 'f', 'i', 'n', 'i', 't', 'y']) :=
    rfl
  rw [hred]
  match ds with
  | [] => rfl
  | c :: cs =>
    obtain ⟨d, hd, rfl⟩ := h c (List.mem_cons_self c cs)
    rw [ciEq_false_of_head _ _ _ _ (digitChar_lower_ne_i d hd),
      ciEq_false_of_head _ _ _ _ (digitChar_lower_ne_i d hd)]
    rfl

theorem formatF0_false_data (n : Nat) (hn : n ≤ 2 ^ 1024 - 2 ^ 971) :
    (formatF0 ⟨false, n, hn⟩).data = toDigitsBase 10 n := by
  show ((if false then "-" else "") ++ decRepr n).data = toDigitsBase 10 n
  rw [if_neg (by simp), String.data_append]
  rfl

theorem formatF0_true_data (n : Nat) (hn : n ≤ 2 ^ 1024 - 2 ^ 971) :
    (formatF0 ⟨true, n, hn⟩).data = '-' :: toDigitsBase 10 n := by
  have hred : formatF0 ⟨true, n, hn⟩ = "-" ++ decRepr n := rfl
  rw [hred, String.data_append]
  rfl

/-- The `%.0f` rendering of any finite float64 — an optional minus sign
followed by the decimal digits of a magnitude below the round-to-infinity
boundary — is accepted by `ParseFloat`: valid syntax and no range error. -/
theorem goParseFloatAccepts_formatF0 (f : GoFloat64) :
    goParseFloatAccepts (formatF0 f) = true := by
  obtain ⟨neg, n, hb⟩ := f
  have hD := allDigitChars_toDigitsBase n
  have hne := toDigitsBase_ne_nil 10 n
  have hdsign : dropSign (toDigitsBase 10 n) = toDigitsBase 10 n := by
    match hds : toDigitsBase 10 n with
    | [] => exact absurd hds hne
    | c :: cs =>
      obtain ⟨d, hd, hcd⟩ := hD c (by rw [hds]; exact List.mem_cons_self c cs)
      exact dropSign_of_not_sign c cs (hcd ▸ digitChar_not_sign d hd)
  have hovf : decOverflow ((toDigitsBase 10 n).foldl
      (fun a c => 10 * a + decVal c) 0) (toDigitsBase 10 n).length 0 = false := by
    rw [foldl_toDigitsBase]
    exact decOverflow_lt_boundary n _ (intMag_lt_infBoundary n hb)
  have hcheck : readFloatCheck (toDigitsBase 10 n) = some false := by
    simp only [readFloatCheck]
    rw [hdsign, startsWith0x_all_digits _ hD]
    simp only [Bool.false_eq_true, if_false]
    rw [decNumberCheck_digits _ hD hne, hovf]
  have hund : goUnderscoreOK (toDigitsBase 10 n) = true := by
    simp only [goUnderscoreOK]
    rw [hdsign, hasBaseTag_all_digits _ hD]
    simp only [Bool.false_eq_true, if_false]
    exact underscoreOKLoop_all_digits _ '^' hD (by decide)
  cases neg with
  | false =>
    unfold goParseFloatAccepts
    rw [formatF0_false_data n hb, specialOk_all_digits _ hD hne, hcheck, hund]
    rfl
  | true =>
    unfold goParseFloatAccepts
    rw [formatF0_true_data n hb, specialOk_minus_digits _ hD]
    have hcheck' : readFloatCheck ('-' :: toDigitsBase 10 n) = some false := by
      simp only [readFloatCheck]
      rw [dropSign_minus, startsWith0x_all_digits _ hD]
      simp only [Bool.false_eq_true, if_false]
      rw [decNumberCheck_digits _ hD hne, hovf]
    have hund' : goUnderscoreOK ('-' :: toDigitsBase 10 n) = true := by
      simp only [goUnderscoreOK]
      rw [dropSign_minus, hasBaseTag_all_digits _ hD]
      simp only [Bool.false_eq_true, if_false]
      exact underscoreOKLoop_all_digits _ '^' hD (by decide)
    rw [hcheck', hund']
    rfl

/-- The numeric wire result `12345.0` (finite, integral float64). -/
def jobNum12345 : GoFloat64 := ⟨false, 12345, by norm_num⟩

/-- C9: `RequestProof` normalizes the remote job-identifier result to
string form for both admitted wire types — the numeric result `12345.0` and
the string result `"12345"` both yield `"12345"`, and every other result
type is an error — and `GetProofStatus` parses the identifier back to
numeric form, failing with the invalid-job-ID error exactly when
`ParseFloat` rejects the identifier: malformed syntax, or a value rounding
to `±Inf` (the `ErrRange` case, e.g. the string identifiers `"1e999"` and
`"0x1p9999"`). -/
theorem C9_jobID_normalization :
    requestProofJobID (.num jobNum12345) = .ok "12345" ∧
    requestProofJobID (.str "12345") = .ok "12345" ∧
    (requestProofJobID .null).isOk = false ∧
    (∀ b, (requestProofJobID (.bool b)).isOk = false) ∧
    (requestProofJobID .arr).isOk = false ∧
    (requestProofJobID .obj).isOk = false ∧
    goParseFloatAccepts "1e999" = false ∧
    goParseFloatAccepts "0x1p9999" = false ∧
    (∀ remote, getProofStatus remote "1e999" = .error (.invalidJobID "1e999")) ∧
    (∀ (jobID : String) (remote : Except String ProofStatusResponse),
      getProofStatus remote jobID = .error (.invalidJobID jobID) ↔
        goParseFloatAccepts jobID = false) := by
  refine ⟨by decide, rfl, rfl, fun b => by cases b <;> rfl, rfl, rfl,
    by decide, by decide, ?_, ?_⟩
  · intro remote
    have h : goParseFloatAccepts "1e999" = false := by decide
    simp [getProofStatus, h]
  · intro jobID remote
    constructor
    · intro h
      cases hacc : goParseFloatAccepts jobID with
      | false => rfl
      | true =>
        rw [getProofStatus, if_pos hacc] at h
        cases remote with
        | error e => simp [Except.mapError] at h
        | ok v => simp [Except.mapError] at h
    · intro hfalse
      simp [getProofStatus, hfalse]

/-- C10: Every job identifier that `RequestProof` builds from a numeric
(float64) result — the `%.0f` rendering — is accepted by the numeric parse
of `GetProofStatus`, which therefore never fails with the invalid-job-ID
error on such an identifier. -/
theorem C10_numeric_jobID_parse_roundtrip (f : GoFloat64)
    (remote : Except String ProofStatusResponse) :
    requestProofJobID (.num f) = .ok (formatF0 f) ∧
    goParseFloatAccepts (formatF0 f) = true ∧
    ∀ s, getProofStatus remote (formatF0 f) ≠ .error (.invalidJobID s) := by
  refine ⟨rfl, goParseFloatAccepts_formatF0 f, ?_⟩
  intro s h
  rw [getProofStatus, if_pos (goParseFloatAccepts_formatF0 f)] at h
  cases remote with
  | error e => simp [Except.mapError] at h
  | ok v => simp [Except.mapError] at h

/-- A concrete negative finite float64 with `%.0f` rendering
`"-9007199254740993"`. -/
def jobNumNegBig : GoFloat64 := ⟨true, 9007199254740993, by norm_num⟩

/-- Witness for C10 at a concrete negative float (modelled rendering
`"-9007199254740993"`) and a concrete remote outcome. -/
theorem C10_witness :
    goParseFloatAccepts (formatF0 jobNumNegBig) = true ∧
    getProofStatus (.ok ⟨"pending", "", ""⟩) (formatF0 jobNumNegBig) ≠
      .error (.invalidJobID "-9007199254740993") := by
  exact ⟨(C10_numeric_jobID_parse_roundtrip jobNumNegBig
      (.ok ⟨"pending", "", ""⟩)).2.1,
    (C10_numeric_jobID_parse_roundtrip jobNumNegBig
      (.ok ⟨"pending", "", ""⟩)).2.2 "-9007199254740993"⟩
